import Mathlib

/-!
# Verification of the lyric tracker core (`lyric_tracker.py`)

Shallow embedding of the LRC-lyric synchronization engine:

* `parse_lrc` — `LyricParser.parse_lrc`: scan each line for `[MM:SS]`,
  `[MM:SS.CC]`, `[MM:SS.CCC]` timestamp tags, emit one entry per tag with the
  text after the last tag, sort by time, deduplicate by the timestamp rounded
  to 1/100 s (reverse scan keeping the first-seen key), re-sort.
* `get_current_lyric` — `LyricParser.get_current_lyric`: backward scan for the
  last entry whose time is ≤ the playback position.
* `tick` — the track-change slice of `main`'s loop (search / fetch
  collaborators abstracted as function arguments).
* `apply_loop_config` — the `[loop]` section of `load_config`.

Timestamps are embedded as exact rationals (`ℚ`); Python's `round(x, 2)` is
embedded as round-half-to-even of `100 * x` (the centisecond key).  Python's
regex `\d` and `str.strip()` are embedded over ASCII, which is the alphabet
the format uses.
-/

/-- One lyric line: a timestamp in seconds and its text (`LyricLine`). -/
structure LyricLine where
  time : ℚ
  text : String
deriving Repr, DecidableEq

/-- Digit value of an ASCII digit character. -/
def dv (c : Char) : ℕ := c.toNat - 48

/-- Python `int` on a digit string: fold the digits in base 10. -/
def digitsVal (ds : List ℕ) : ℕ := ds.foldl (fun acc d => 10 * acc + d) 0

/-- A single regex match of `\[(\d{2}):(\d{2})(?:\.(\d{2,3}))?\]`:
the two-digit minute and second values, the optional fractional digits,
and the offset (in characters) one past the closing bracket. -/
structure TagMatch where
  minutes : ℕ
  seconds : ℕ
  frac : Option (List ℕ)
  endPos : ℕ
deriving Repr, DecidableEq

/-- Match the tail `(?:\.(\d{2,3}))?\]` of the timestamp regex at the head of
`cs`: greedily three fractional digits, else two, else no fractional part.
Returns the digits and the number of characters consumed. -/
def matchFracClose (cs : List Char) : Option (Option (List ℕ) × ℕ) :=
  match cs with
  | c0 :: rest =>
    if c0 == '.' then
      match rest with
      | a :: b :: c :: d :: _ =>
        if a.isDigit && b.isDigit && c.isDigit && d == ']' then
          some (some [dv a, dv b, dv c], 5)
        else if a.isDigit && b.isDigit && c == ']' then
          some (some [dv a, dv b], 4)
        else none
      | [a, b, c] =>
        if a.isDigit && b.isDigit && c == ']' then some (some [dv a, dv b], 4)
        else none
      | _ => none
    else if c0 == ']' then some (none, 1)
    else none
  | [] => none

/-- Match the timestamp regex `\[(\d{2}):(\d{2})(?:\.(\d{2,3}))?\]` at the head
of `cs`; on success return minutes, seconds, fractional digits and the length
of the match. -/
def matchTag (cs : List Char) : Option (ℕ × ℕ × Option (List ℕ) × ℕ) :=
  match cs with
  | c0 :: c1 :: c2 :: c3 :: c4 :: c5 :: rest =>
    if c0 == '[' && c1.isDigit && c2.isDigit && c3 == ':' &&
        c4.isDigit && c5.isDigit then
      match matchFracClose rest with
      | some (fr, n) => some (10 * dv c1 + dv c2, 10 * dv c4 + dv c5, fr, 6 + n)
      | none => none
    else none
  | _ => none

/-- `re.finditer` of the timestamp regex over a line, with `pos` the absolute
offset of the head of `cs`.  The scan tries every position; this agrees with
`finditer` (which resumes after each match) because no character strictly
inside a matched span is `'['`, so matches can never overlap. -/
def findTags : List Char → ℕ → List TagMatch
  | [], _ => []
  | c :: rest, pos =>
    match matchTag (c :: rest) with
    | some (m, s, fr, len) => ⟨m, s, fr, pos + len⟩ :: findTags rest (pos + 1)
    | none => findTags rest (pos + 1)

/-- `minutes*60 + seconds` plus the fractional part: two digits are
centiseconds (`/100`), three are milliseconds (`/1000`), absent is zero.
(`Rat.divInt a b` is the exact rational `a / b`.) -/
def tagTime (tg : TagMatch) : ℚ :=
  let base : ℚ := ((tg.minutes * 60 + tg.seconds : ℕ) : ℚ)
  match tg.frac with
  | none => base
  | some ds =>
    if ds.length = 2 then base + Rat.divInt (digitsVal ds) 100
    else base + Rat.divInt (digitsVal ds) 1000

/-- Python whitespace stripped by `str.strip()` (ASCII part). -/
def pySpace (c : Char) : Bool :=
  c == ' ' || c == '\t' || c == '\n' || c == '\r' ||
  c == '\x0b' || c == '\x0c'

/-- Python `str.strip()`: drop leading and trailing whitespace. -/
def pyStrip (cs : List Char) : List Char :=
  ((cs.dropWhile pySpace).reverse.dropWhile pySpace).reverse

/-- Python `str.split('\n')`: split at every newline, keeping empty pieces
(`acc` holds the current piece reversed). -/
def splitNl : List Char → List Char → List (List Char)
  | [], acc => [acc.reverse]
  | c :: rest, acc =>
    if c == '\n' then acc.reverse :: splitNl rest []
    else splitNl rest (c :: acc)

/-- The per-line body of `parse_lrc`'s first loop: if the line has timestamp
tags and the text after the last tag is non-empty once stripped, emit one
entry per tag, all sharing that text. -/
def parseLine (line : List Char) : List LyricLine :=
  match (findTags line 0).getLast? with
  | none => []
  | some last =>
    if pyStrip (line.drop last.endPos) = [] then []
    else (findTags line 0).map fun tg =>
      ⟨tagTime tg, String.mk (pyStrip (line.drop last.endPos))⟩

/-- All entries of `parse_lrc` in emission (file) order: strip the whole text,
split into lines, run the per-line loop. -/
def rawEntries (s : String) : List LyricLine :=
  ((splitNl (pyStrip s.toList) []).map parseLine).flatten

/-- The sort key order of `lyrics.sort(key=lambda x: x.time)`. -/
def timeLe (a b : LyricLine) : Prop := a.time ≤ b.time

instance : DecidableRel timeLe := fun a b => inferInstanceAs (Decidable (a.time ≤ b.time))

instance : IsTotal LyricLine timeLe := ⟨fun a b => le_total a.time b.time⟩

instance : IsTrans LyricLine timeLe := ⟨fun _ _ _ h h2 => le_trans h h2⟩

/-- Python's `round` to an integer: round half to even.  With `f = ⌊q⌋` and
`rem` the fractional numerator (`q - f = rem / den`), the fractional part is
below, above, or exactly one half according as `2 * rem` compares to `den`. -/
def pyRound (q : ℚ) : ℤ :=
  let d : ℤ := q.den
  let f : ℤ := q.num.ediv d
  let rem : ℤ := q.num.emod d
  if 2 * rem < d then f
  else if d < 2 * rem then f + 1
  else if f % 2 = 0 then f else f + 1

/-- The dedup key `round(lyric.time, 2)`, represented in centiseconds. -/
def timeKey (t : ℚ) : ℤ := pyRound (100 * t)

/-- The dedup loop of `parse_lrc`: scan (the reversed sorted list), keep an
entry only when its rounded key has not been seen. -/
def dedupScan : List LyricLine → List ℤ → List LyricLine
  | [], _ => []
  | x :: xs, seen =>
    if timeKey x.time ∈ seen then dedupScan xs seen
    else x :: dedupScan xs (timeKey x.time :: seen)

/-- `LyricParser.parse_lrc`: emit entries, stable-sort ascending by time
(Python `list.sort` is stable, so any stable ascending sort has the same
result), deduplicate scanning in reverse, re-sort. -/
def parse_lrc (s : String) : List LyricLine :=
  let lyrics := rawEntries s
  let sorted := List.insertionSort timeLe lyrics
  let unique := dedupScan sorted.reverse []
  List.insertionSort timeLe unique

/-- The backward scan of `get_current_lyric`: the last entry whose time is
≤ `t`, paired with the text of the entry after it (if any).  Preferring the
tail's result matches scanning indices from the end. -/
def findCur : List LyricLine → ℚ → Option (String × Option String)
  | [], _ => none
  | x :: xs, t =>
    match findCur xs t with
    | some r => some r
    | none =>
      if x.time ≤ t then some (x.text, (xs.head?).map LyricLine.text)
      else none

/-- `LyricParser.get_current_lyric`: `(current, next)` texts for a playback
position.  When no entry has started yet, preview the first entry as next. -/
def get_current_lyric (lyrics : List LyricLine) (current_time : ℚ) :
    Option String × Option String :=
  match findCur lyrics current_time with
  | some (c, n) => (some c, n)
  | none =>
    match lyrics.head? with
    | some x => (none, some x.text)
    | none => (none, none)

/-- `SongInfo`: the probed track identity plus the resolved catalog id. -/
structure SongInfo where
  title : String
  artist : String
  netease_id : Option ℤ := none
deriving Repr, DecidableEq

/-- The session state mutated by `main`'s loop: the track considered current
and the two timelines. -/
structure SessionState where
  current_song : Option SongInfo
  lyrics : List LyricLine
  translations : List LyricLine
deriving Repr, DecidableEq

/-- The track-change test of `main`:
`current_song is None or current_song.title != song_info.title or
current_song.artist != song_info.artist`. -/
def track_changed (cur : Option SongInfo) (song : SongInfo) : Bool :=
  match cur with
  | none => true
  | some c => c.title != song.title || c.artist != song.artist

/-- The track-change slice of one iteration of `main`'s loop.  `search` embeds
`NeteaseMusicSearcher.search_song` and `fetch` embeds
`LyricFetcher.fetch_lyrics` (which returns both timelines on success and
nothing on failure; a successful primary parse may still be the empty list,
which `if new_lyrics:` treats as a failure).  The returned `Bool` records
whether resolution/retrieval was invoked on this tick. -/
def tick (search : String → String → Option ℤ)
    (fetch : ℤ → Option (List LyricLine × List LyricLine))
    (st : SessionState) (song : SongInfo) : SessionState × Bool :=
  if track_changed st.current_song song then
    match search song.title song.artist with
    | some nid =>
      match fetch nid with
      | some (new_lyrics, new_translations) =>
        if new_lyrics ≠ [] then
          (⟨some { song with netease_id := some nid }, new_lyrics,
            new_translations⟩, true)
        else
          (⟨some { song with netease_id := some nid }, [], []⟩, true)
      | none => (⟨some { song with netease_id := some nid }, [], []⟩, true)
    | none => (⟨some song, [], []⟩, true)
  else (st, false)

/-- `AppConfig` (the fields the loop-timing policy reads; intervals in
seconds, defaults `0.10 = 1/10`). -/
structure AppConfig where
  poll_interval : ℚ := Rat.divInt 1 10
  render_interval : ℚ := Rat.divInt 1 10
deriving Repr, DecidableEq

/-- The `[loop]` section of `load_config`: each interval, when present and
numeric in the file, is clamped below by `0.02 = 1/50` independently. -/
def apply_loop_config (cfg : AppConfig) (poll render : Option ℚ) : AppConfig :=
  let cfg1 := match poll with
    | some v => { cfg with poll_interval := max (Rat.divInt 1 50) v }
    | none => cfg
  match render with
  | some v => { cfg1 with render_interval := max (Rat.divInt 1 50) v }
  | none => cfg1

/-! ## Helper lemmas about the dedup scan -/

lemma mem_of_mem_dedupScan {l : List LyricLine} {seen : List ℤ} {x : LyricLine}
    (h : x ∈ dedupScan l seen) : x ∈ l := by
  induction l generalizing seen with
  | nil => simp [dedupScan] at h
  | cons y ys ih =>
    simp only [dedupScan] at h
    split at h
    · exact List.mem_cons_of_mem _ (ih h)
    · rcases List.mem_cons.mp h with rfl | h2
      · exact List.mem_cons_self ..
      · exact List.mem_cons_of_mem _ (ih h2)

lemma key_not_seen_of_mem_dedupScan {l : List LyricLine} {seen : List ℤ}
    {x : LyricLine} (h : x ∈ dedupScan l seen) : timeKey x.time ∉ seen := by
  induction l generalizing seen with
  | nil => simp [dedupScan] at h
  | cons y ys ih =>
    simp only [dedupScan] at h
    split at h
    · exact ih h
    · rename_i hns
      rcases List.mem_cons.mp h with rfl | h2
      · exact hns
      · intro hmem
        exact (ih h2) (List.mem_cons_of_mem _ hmem)

lemma dedupScan_keys_pairwise (l : List LyricLine) (seen : List ℤ) :
    (dedupScan l seen).Pairwise (fun a b => timeKey a.time ≠ timeKey b.time) := by
  induction l generalizing seen with
  | nil => simp [dedupScan]
  | cons y ys ih =>
    simp only [dedupScan]
    split
    · exact ih seen
    · refine List.pairwise_cons.mpr ⟨?_, ih _⟩
      intro b hb
      have hns := key_not_seen_of_mem_dedupScan hb
      intro heq
      exact hns (heq ▸ List.mem_cons_self ..)

/-- Over a list whose times descend, the dedup scan keeps, for each unseen
key, a representative whose exact time is at least that of every entry with
that key. -/
lemma dedupScan_covers {l : List LyricLine}
    (hd : l.Pairwise (fun a b => b.time ≤ a.time)) {seen : List ℤ}
    {x : LyricLine} (hx : x ∈ l) (hns : timeKey x.time ∉ seen) :
    ∃ y ∈ dedupScan l seen, timeKey y.time = timeKey x.time ∧ x.time ≤ y.time := by
  induction l generalizing seen with
  | nil => cases hx
  | cons z zs ih =>
    have hz : ∀ b ∈ zs, b.time ≤ z.time := (List.pairwise_cons.mp hd).1
    have hd2 := (List.pairwise_cons.mp hd).2
    simp only [dedupScan]
    split
    · rename_i hzseen
      rcases List.mem_cons.mp hx with rfl | hx2
      · exact absurd hzseen hns
      · exact ih hd2 hx2 hns
    · rename_i hzns
      rcases List.mem_cons.mp hx with rfl | hx2
      · exact ⟨x, List.mem_cons_self .., rfl, le_refl _⟩
      · by_cases hk : timeKey x.time = timeKey z.time
        · exact ⟨z, List.mem_cons_self .., hk.symm, hz x hx2⟩
        · have hns2 : timeKey x.time ∉ timeKey z.time :: seen := by
            intro hmem
            rcases List.mem_cons.mp hmem with h1 | h2
            · exact hk h1
            · exact hns h2
          obtain ⟨y, hy, hky, hty⟩ := ih hd2 hx2 hns2
          exact ⟨y, List.mem_cons_of_mem _ hy, hky, hty⟩

/-! ## Helper lemmas about the parse pipeline -/

lemma parse_lrc_eq (s : String) :
    parse_lrc s =
      List.insertionSort timeLe
        (dedupScan (List.insertionSort timeLe (rawEntries s)).reverse []) := rfl

lemma parse_lrc_sorted (s : String) : (parse_lrc s).Sorted timeLe := by
  rw [parse_lrc_eq]
  exact List.sorted_insertionSort timeLe _

lemma parse_lrc_keys_pairwise (s : String) :
    (parse_lrc s).Pairwise (fun a b => timeKey a.time ≠ timeKey b.time) := by
  rw [parse_lrc_eq]
  exact ((List.perm_insertionSort timeLe _).pairwise_iff
    (fun h => h.symm)).mpr (dedupScan_keys_pairwise _ _)

lemma mem_rawEntries_of_mem_parse_lrc {s : String} {x : LyricLine}
    (h : x ∈ parse_lrc s) : x ∈ rawEntries s := by
  rw [parse_lrc_eq] at h
  have h1 := mem_of_mem_dedupScan ((List.mem_insertionSort timeLe).mp h)
  exact (List.mem_insertionSort timeLe).mp (List.mem_reverse.mp h1)

lemma parse_lrc_covers {s : String} {x : LyricLine} (hx : x ∈ rawEntries s) :
    ∃ y ∈ parse_lrc s, timeKey y.time = timeKey x.time ∧ x.time ≤ y.time := by
  have hx1 : x ∈ (List.insertionSort timeLe (rawEntries s)).reverse :=
    List.mem_reverse.mpr ((List.mem_insertionSort timeLe).mpr hx)
  have hdesc : (List.insertionSort timeLe (rawEntries s)).reverse.Pairwise
      (fun a b => b.time ≤ a.time) :=
    List.pairwise_reverse.mpr (List.sorted_insertionSort timeLe _)
  obtain ⟨y, hy, hky, hty⟩ :=
    dedupScan_covers hdesc hx1 (List.not_mem_nil _)
  exact ⟨y, by rw [parse_lrc_eq]; exact (List.mem_insertionSort timeLe).mpr hy,
    hky, hty⟩

lemma text_ne_empty_of_mem_parseLine {line : List Char} {x : LyricLine}
    (h : x ∈ parseLine line) : x.text ≠ "" := by
  unfold parseLine at h
  split at h
  · cases h
  · split at h
    · cases h
    · rename_i last hne
      obtain ⟨tg, _, rfl⟩ := List.mem_map.mp h
      intro heq
      apply hne
      have hd := congrArg String.data heq
      simpa using hd

lemma text_ne_empty_of_mem_rawEntries {s : String} {x : LyricLine}
    (h : x ∈ rawEntries s) : x.text ≠ "" := by
  unfold rawEntries at h
  obtain ⟨l, hl, hx⟩ := List.mem_flatten.mp h
  obtain ⟨line, _, rfl⟩ := List.mem_map.mp hl
  exact text_ne_empty_of_mem_parseLine hx

/-! ## Helper lemmas about the backward scan of the resolver -/

lemma findCur_none {l : List LyricLine} {t : ℚ} (h : ∀ y ∈ l, t < y.time) :
    findCur l t = none := by
  induction l with
  | nil => rfl
  | cons x xs ih =>
    simp only [findCur, ih (fun y hy => h y (List.mem_cons_of_mem _ hy))]
    rw [if_neg (not_le.mpr (h x (List.mem_cons_self ..)))]

lemma findCur_spec {l : List LyricLine} {t : ℚ} {i : ℕ} (hi : i < l.length)
    (hle : l[i].time ≤ t)
    (hafter : ∀ j (hj : j < l.length), i < j → t < l[j].time) :
    findCur l t = some (l[i].text, l[i + 1]?.map LyricLine.text) := by
  induction l generalizing i with
  | nil => simp at hi
  | cons x xs ih =>
    cases i with
    | zero =>
      have hnone : findCur xs t = none := by
        apply findCur_none
        intro y hy
        obtain ⟨j, hj, rfl⟩ := List.mem_iff_getElem.mp hy
        have := hafter (j + 1) (by simpa using Nat.succ_lt_succ hj) (Nat.succ_pos j)
        simpa using this
      simp only [findCur, hnone]
      rw [if_pos (by simpa using hle)]
      simp [List.head?_eq_getElem?]
    | succ k =>
      have hk : k < xs.length := by simpa using hi
      have hrec : findCur xs t = some (xs[k].text, xs[k + 1]?.map LyricLine.text) := by
        apply ih hk (by simpa using hle)
        intro j hj hkj
        have := hafter (j + 1) (by simpa using Nat.succ_lt_succ hj)
          (Nat.succ_lt_succ hkj)
        simpa using this
      simp only [findCur, hrec]
      simp

/-! ## Claim C4: the parser establishes the Timeline invariant -/

/-- Claim C4: for every input string, `parse_lrc` returns a timeline whose
timestamps are non-decreasing in sequence order, with at most one entry per
timestamp rounded to 1/100 second, and with no empty-text entry. -/
theorem parser_invariant (s : String) :
    (parse_lrc s).Sorted timeLe ∧
    (parse_lrc s).Pairwise (fun a b => timeKey a.time ≠ timeKey b.time) ∧
    ∀ x ∈ parse_lrc s, x.text ≠ "" :=
  ⟨parse_lrc_sorted s, parse_lrc_keys_pairwise s,
    fun _ hx => text_ne_empty_of_mem_rawEntries (mem_rawEntries_of_mem_parse_lrc hx)⟩

/-! ## Claim C1: the dedup policy -/

unseal Rat.mul Rat.add Rat.sub in
/-- Claim C1 fails as stated: in `"[00:10.004]A\n[00:10.001]B"` both entries
round to the same 1/100-second key (centisecond key 1000), the entry with
text `"B"` appears last in file (emission) order, yet `parse_lrc` keeps the
entry with text `"A"` (the reverse scan runs over the list sorted by exact
time, so the greatest exact time wins, not the last emitted). -/
theorem parser_dedup_counterexample :
    rawEntries "[00:10.004]A\n[00:10.001]B" =
      [⟨Rat.divInt 2501 250, "A"⟩, ⟨Rat.divInt 10001 1000, "B"⟩] ∧
    timeKey (Rat.divInt 2501 250) = timeKey (Rat.divInt 10001 1000) ∧
    parse_lrc "[00:10.004]A\n[00:10.001]B" = [⟨Rat.divInt 2501 250, "A"⟩] :=
  ⟨by decide, by decide, by decide⟩

unseal Rat.mul Rat.add Rat.sub in
/-- Claim C1, amended: `parse_lrc` keeps exactly one entry per rounded key,
drawn from the parsed entries, namely the entry that comes last in the
stable ascending sort by exact time: its exact timestamp is maximal among
the entries with its key, and among entries with equal exact timestamp the
one last in file order wins — in particular `[00:10.00]A` then `[00:10.00]B`
yields exactly one entry at 10.00 s with text `"B"`. -/
theorem parser_dedup_amended (s : String) {x : LyricLine}
    (hx : x ∈ rawEntries s) :
    (∃ y ∈ parse_lrc s, timeKey y.time = timeKey x.time ∧ x.time ≤ y.time) ∧
    (parse_lrc s).Pairwise (fun a b => timeKey a.time ≠ timeKey b.time) ∧
    (∀ z ∈ parse_lrc s, z ∈ rawEntries s) ∧
    parse_lrc "[00:10.00]A\n[00:10.00]B" = [⟨10, "B"⟩] :=
  ⟨parse_lrc_covers hx, parse_lrc_keys_pairwise s,
    fun _ hz => mem_rawEntries_of_mem_parse_lrc hz, by decide⟩

unseal Rat.mul Rat.add Rat.sub in
/-- Witness for the amended claim C1 at the concrete input of the claim. -/
theorem parser_dedup_amended_witness :
    (⟨10, "A"⟩ : LyricLine) ∈ rawEntries "[00:10.00]A\n[00:10.00]B" ∧
    ∃ y ∈ parse_lrc "[00:10.00]A\n[00:10.00]B",
      timeKey y.time = timeKey (10 : ℚ) ∧ (10 : ℚ) ≤ y.time := by
  have hx : (⟨10, "A"⟩ : LyricLine) ∈ rawEntries "[00:10.00]A\n[00:10.00]B" := by
    decide
  exact ⟨hx, (parser_dedup_amended _ hx).1⟩

/-! ## Claims C2, C3, C10: the position resolver -/

/-- Claim C2: when entry `i` is the last entry with timestamp ≤ the position,
`get_current_lyric` returns its text as current, and as next the text of
entry `i+1` when it exists, none when `i` is final. -/
theorem resolver_mid_playback {l : List LyricLine} {t : ℚ} {i : ℕ}
    (hi : i < l.length) (hle : l[i].time ≤ t)
    (hafter : ∀ j (hj : j < l.length), i < j → t < l[j].time) :
    get_current_lyric l t = (some l[i].text, l[i + 1]?.map LyricLine.text) := by
  unfold get_current_lyric
  rw [findCur_spec hi hle hafter]

/-- Witness for claim C2: timeline `[(5,"A"),(10,"B")]` at position `7.5`. -/
theorem resolver_mid_playback_witness :
    get_current_lyric [⟨5, "A"⟩, ⟨10, "B"⟩] (Rat.divInt 15 2) =
      (some "A", some "B") := by
  have h := resolver_mid_playback (l := [⟨5, "A"⟩, ⟨10, "B"⟩])
    (t := Rat.divInt 15 2) (i := 0) (by decide) (by decide) (by decide)
  simpa using h

/-- Claim C3: on a sorted non-empty timeline, a position strictly before the
first timestamp yields no current lyric and the first entry's text as next;
the empty timeline yields `(none, none)` at every position. -/
theorem resolver_before_start {l : List LyricLine} {t : ℚ} (hne : l ≠ [])
    (hs : l.Sorted timeLe) (ht : t < (l.head hne).time) :
    get_current_lyric l t = (none, some (l.head hne).text) ∧
    get_current_lyric [] t = (none, none) := by
  refine ⟨?_, rfl⟩
  have hall : ∀ y ∈ l, t < y.time := by
    intro y hy
    rcases l with _ | ⟨x, xs⟩
    · cases hy
    · rcases List.mem_cons.mp hy with rfl | h2
      · exact ht
      · exact lt_of_lt_of_le ht ((List.pairwise_cons.mp hs).1 y h2)
  unfold get_current_lyric
  rw [findCur_none hall]
  rcases l with _ | ⟨x, xs⟩
  · cases hne rfl
  · simp [List.head?, List.head]

/-- Witness for claim C3: timeline `[(5,"A"),(10,"B")]` at position `0`. -/
theorem resolver_before_start_witness :
    get_current_lyric [⟨5, "A"⟩, ⟨10, "B"⟩] 0 = (none, some "A") ∧
    get_current_lyric [] 0 = (none, none) := by
  have h := resolver_before_start (l := [⟨5, "A"⟩, ⟨10, "B"⟩]) (t := 0)
    (by decide) (by decide) (by decide)
  simpa using h

/-- Claim C10: on a non-empty timeline the resolver never returns
`(none, none)`, and whenever the current component is none the next component
is the first entry's text. -/
theorem resolver_total {l : List LyricLine} {t : ℚ} (hne : l ≠ []) :
    get_current_lyric l t ≠ (none, none) ∧
    ((get_current_lyric l t).1 = none →
      (get_current_lyric l t).2 = some (l.head hne).text) := by
  unfold get_current_lyric
  rcases l with _ | ⟨x, xs⟩
  · cases hne rfl
  · cases hf : findCur (x :: xs) t with
    | some r =>
      rcases r with ⟨c, n⟩
      simp [hf]
    | none => simp [hf, List.head?, List.head]

/-- Witness for claim C10 on the timeline `[(5,"A")]` at position `0`. -/
theorem resolver_total_witness :
    get_current_lyric [⟨5, "A"⟩] 0 ≠ (none, none) ∧
    ((get_current_lyric [⟨5, "A"⟩] 0).1 = none →
      (get_current_lyric [⟨5, "A"⟩] 0).2 = some "A") := by
  have h := resolver_total (l := [⟨5, "A"⟩]) (t := 0) (by decide)
  simpa using h

/-! ## Helper lemmas for symbolic tag matching -/

lemma beq_false_of_isDigit {c d : Char} (h : c.isDigit = true)
    (hd : d.isDigit = false) : (c == d) = false := by
  cases hbe : c == d
  · rfl
  · have hcd : c = d := eq_of_beq hbe
    subst hcd
    rw [h] at hd
    cases hd

lemma tick_same_track (search : String → String → Option ℤ)
    (fetch : ℤ → Option (List LyricLine × List LyricLine))
    (st : SessionState) (song c : SongInfo) (h : st.current_song = some c)
    (ht : c.title = song.title) (ha : c.artist = song.artist) :
    tick search fetch st song = (st, false) := by
  unfold tick
  simp [track_changed, h, ht, ha]

/-! ## Claim C5: the time of a recognized tag -/

unseal Rat.mul Rat.add Rat.sub in
/-- Claim C5: a recognized tag's time is `minutes*60 + seconds + fraction`
with the fraction `value/100` for two fractional digits, `value/1000` for
three, `0` when absent; digit values are used as-is, so out-of-range fields
such as seconds ≥ 60 are accepted without validation (witness the concrete
input `[00:99.50]X`, parsed at `99.5` seconds). -/
theorem tag_time_formula :
    (∀ c1 c2 c3 c4 : Char, c1.isDigit = true → c2.isDigit = true →
      c3.isDigit = true → c4.isDigit = true →
      findTags ['[', c1, c2, ':', c3, c4, ']'] 0 =
        [⟨10 * dv c1 + dv c2, 10 * dv c3 + dv c4, none, 7⟩]) ∧
    (∀ c1 c2 c3 c4 e1 e2 : Char, c1.isDigit = true → c2.isDigit = true →
      c3.isDigit = true → c4.isDigit = true → e1.isDigit = true →
      e2.isDigit = true →
      findTags ['[', c1, c2, ':', c3, c4, '.', e1, e2, ']'] 0 =
        [⟨10 * dv c1 + dv c2, 10 * dv c3 + dv c4, some [dv e1, dv e2], 10⟩]) ∧
    (∀ c1 c2 c3 c4 e1 e2 e3 : Char, c1.isDigit = true → c2.isDigit = true →
      c3.isDigit = true → c4.isDigit = true → e1.isDigit = true →
      e2.isDigit = true → e3.isDigit = true →
      findTags ['[', c1, c2, ':', c3, c4, '.', e1, e2, e3, ']'] 0 =
        [⟨10 * dv c1 + dv c2, 10 * dv c3 + dv c4,
          some [dv e1, dv e2, dv e3], 11⟩]) ∧
    (∀ m s p : ℕ, tagTime ⟨m, s, none, p⟩ = (m : ℚ) * 60 + s) ∧
    (∀ m s a b p : ℕ, tagTime ⟨m, s, some [a, b], p⟩ =
      (m : ℚ) * 60 + s + ((10 * a + b : ℕ) : ℚ) / 100) ∧
    (∀ m s a b c p : ℕ, tagTime ⟨m, s, some [a, b, c], p⟩ =
      (m : ℚ) * 60 + s + ((100 * a + 10 * b + c : ℕ) : ℚ) / 1000) ∧
    parse_lrc "[00:99.50]X" = [⟨Rat.divInt 199 2, "X"⟩] := by
  have hlb : ∀ {c : Char}, c.isDigit = true → (c == '[') = false :=
    fun h => beq_false_of_isDigit h (by decide)
  refine ⟨?_, ?_, ?_, ?_, ?_, ?_, by decide⟩
  · intro c1 c2 c3 c4 h1 h2 h3 h4
    simp [findTags, matchTag, matchFracClose, h1, h2, h3, h4,
      hlb h1, hlb h2, hlb h3, hlb h4]
  · intro c1 c2 c3 c4 e1 e2 h1 h2 h3 h4 he1 he2
    simp [findTags, matchTag, matchFracClose, h1, h2, h3, h4, he1, he2,
      hlb h1, hlb h2, hlb h3, hlb h4, hlb he1, hlb he2]
  · intro c1 c2 c3 c4 e1 e2 e3 h1 h2 h3 h4 he1 he2 he3
    simp [findTags, matchTag, matchFracClose, h1, h2, h3, h4, he1, he2, he3,
      hlb h1, hlb h2, hlb h3, hlb h4, hlb he1, hlb he2, hlb he3]
  · intro m s p
    simp [tagTime]
  · intro m s a b p
    simp [tagTime, digitsVal, Rat.divInt_eq_div]
  · intro m s a b c p
    simp [tagTime, digitsVal, Rat.divInt_eq_div]
    ring

/-- Witness for claim C5 at concrete digits, including out-of-range seconds
`99`. -/
theorem tag_time_formula_witness :
    findTags ['[', '0', '0', ':', '9', '9', ']'] 0 = [⟨0, 99, none, 7⟩] ∧
    findTags ['[', '0', '1', ':', '0', '2', '.', '4', '5', ']'] 0 =
      [⟨1, 2, some [4, 5], 10⟩] ∧
    findTags ['[', '0', '1', ':', '0', '2', '.', '3', '4', '5', ']'] 0 =
      [⟨1, 2, some [3, 4, 5], 11⟩] := by
  have h := tag_time_formula
  refine ⟨?_, ?_, ?_⟩
  · rw [h.1 '0' '0' '9' '9' (by decide) (by decide) (by decide) (by decide)]
    decide
  · rw [h.2.1 '0' '1' '0' '2' '4' '5' (by decide) (by decide) (by decide)
      (by decide) (by decide) (by decide)]
    decide
  · rw [h.2.2.1 '0' '1' '0' '2' '3' '4' '5' (by decide) (by decide) (by decide)
      (by decide) (by decide) (by decide) (by decide)]
    decide

/-! ## Claims C6 and C7: per-line emission -/

unseal Rat.mul Rat.add Rat.sub in
/-- Claim C6: a line with tags whose trailing text (after the last tag,
trimmed) is non-empty emits one entry per tag, each sharing that text at its
own tag's time; in particular `[00:05.00][00:06.00]Hello` yields exactly two
entries, both `"Hello"`, at 5.00 s and 6.00 s. -/
theorem multi_tag_line (line : List Char) (last : TagMatch)
    (hlast : (findTags line 0).getLast? = some last)
    (hne : pyStrip (line.drop last.endPos) ≠ []) :
    (parseLine line).length = (findTags line 0).length ∧
    (parseLine line).map LyricLine.time = (findTags line 0).map tagTime ∧
    (∀ e ∈ parseLine line,
      e.text = String.mk (pyStrip (line.drop last.endPos))) ∧
    parse_lrc "[00:05.00][00:06.00]Hello" = [⟨5, "Hello"⟩, ⟨6, "Hello"⟩] := by
  have hp : parseLine line = (findTags line 0).map fun tg =>
      ⟨tagTime tg, String.mk (pyStrip (line.drop last.endPos))⟩ := by
    unfold parseLine
    rw [hlast]
    dsimp only
    rw [if_neg hne]
  refine ⟨by rw [hp]; simp, by rw [hp]; simp [Function.comp], ?_, by decide⟩
  intro e he
  rw [hp] at he
  obtain ⟨tg, _, rfl⟩ := List.mem_map.mp he
  rfl

/-- Witness for claim C6 on the line `[00:05.00][00:06.00]Hello`. -/
theorem multi_tag_line_witness :
    (parseLine "[00:05.00][00:06.00]Hello".toList).length =
      (findTags "[00:05.00][00:06.00]Hello".toList 0).length ∧
    parse_lrc "[00:05.00][00:06.00]Hello" = [⟨5, "Hello"⟩, ⟨6, "Hello"⟩] := by
  have h := multi_tag_line "[00:05.00][00:06.00]Hello".toList
    ⟨0, 6, some [0, 0], 20⟩ (by decide) (by decide)
  exact ⟨h.1, h.2.2.2⟩

/-- Claim C7: a line whose text after the last tag trims to the empty string
emits zero entries, whether it carries one tag or several. -/
theorem empty_text_suppression (line : List Char) (last : TagMatch)
    (hlast : (findTags line 0).getLast? = some last)
    (hempty : pyStrip (line.drop last.endPos) = []) :
    parseLine line = [] ∧
    parse_lrc "[00:03.00]   " = [] ∧
    parse_lrc "[00:03.00][00:04.00] \t " = [] := by
  refine ⟨?_, by decide, by decide⟩
  unfold parseLine
  rw [hlast]
  dsimp only
  rw [if_pos hempty]

/-- Witness for claim C7 on the whitespace-only-text line `[00:03.00]   `. -/
theorem empty_text_suppression_witness :
    parseLine "[00:03.00]   ".toList = [] :=
  (empty_text_suppression "[00:03.00]   ".toList ⟨0, 3, some [0, 0], 10⟩
    (by decide) (by decide)).1

/-! ## Claim C8: session failure handling and stability -/

/-- Claim C8: when a track-change tick finds no identifier, or retrieval
yields nothing (or an empty primary), the session stores empty timelines for
both primary and translation and still records the probed identity as
current; a tick whose probed title and artist equal the stored ones — the
only fields the track-change test compares, so the stored `netease_id` left
behind by a failed retrieval does not matter — leaves the state unchanged
and does not invoke resolution/retrieval (the `Bool` is false), so iterated
same-identity ticks from any such stored state never re-invoke them. -/
theorem session_failure_and_stability
    (search : String → String → Option ℤ)
    (fetch : ℤ → Option (List LyricLine × List LyricLine))
    (st : SessionState) (song : SongInfo) :
    (track_changed st.current_song song = true →
      search song.title song.artist = none →
      tick search fetch st song = (⟨some song, [], []⟩, true)) ∧
    (∀ nid, track_changed st.current_song song = true →
      search song.title song.artist = some nid → fetch nid = none →
      tick search fetch st song =
        (⟨some { song with netease_id := some nid }, [], []⟩, true)) ∧
    (∀ nid tr, track_changed st.current_song song = true →
      search song.title song.artist = some nid → fetch nid = some ([], tr) →
      tick search fetch st song =
        (⟨some { song with netease_id := some nid }, [], []⟩, true)) ∧
    (∀ (st2 : SessionState) (c : SongInfo), st2.current_song = some c →
      c.title = song.title → c.artist = song.artist →
      tick search fetch st2 song = (st2, false)) ∧
    (∀ (n : ℕ) (c : SongInfo), c.title = song.title →
      c.artist = song.artist → ∀ lys trs : List LyricLine,
      (fun s2 => (tick search fetch s2 song).1)^[n] ⟨some c, lys, trs⟩ =
        ⟨some c, lys, trs⟩) := by
  refine ⟨?_, ?_, ?_,
    fun st2 c h ht ha => tick_same_track search fetch st2 song c h ht ha, ?_⟩
  · intro hch hs
    simp [tick, hch, hs]
  · intro nid hch hs hf
    simp [tick, hch, hs, hf]
  · intro nid tr hch hs hf
    simp [tick, hch, hs, hf]
  · intro n c ht ha lys trs
    induction n with
    | zero => rfl
    | succ k ih =>
      rw [Function.iterate_succ_apply,
        tick_same_track search fetch _ song c rfl ht ha]
      exact ih

/-- Witness for claim C8: both failure modes.  With no identifier found the
track is stored with empty timelines and the next same-identity tick is a
no-op; with an identifier but failing retrieval the stored record carries
`netease_id := some 7` while the next probe reports none, and the tick is
still a no-op. -/
theorem session_failure_and_stability_witness :
    tick (fun _ _ => none) (fun _ => none) ⟨none, [], []⟩ ⟨"t", "a", none⟩ =
      (⟨some ⟨"t", "a", none⟩, [], []⟩, true) ∧
    tick (fun _ _ => none) (fun _ => none)
      ⟨some ⟨"t", "a", none⟩, [], []⟩ ⟨"t", "a", none⟩ =
      (⟨some ⟨"t", "a", none⟩, [], []⟩, false) ∧
    tick (fun _ _ => some 7) (fun _ => none) ⟨none, [], []⟩ ⟨"t", "a", none⟩ =
      (⟨some ⟨"t", "a", some 7⟩, [], []⟩, true) ∧
    tick (fun _ _ => some 7) (fun _ => none)
      ⟨some ⟨"t", "a", some 7⟩, [], []⟩ ⟨"t", "a", none⟩ =
      (⟨some ⟨"t", "a", some 7⟩, [], []⟩, false) := by
  have h1 := session_failure_and_stability (fun _ _ => none) (fun _ => none)
    ⟨none, [], []⟩ ⟨"t", "a", none⟩
  have h2 := session_failure_and_stability (fun _ _ => some 7) (fun _ => none)
    ⟨none, [], []⟩ ⟨"t", "a", none⟩
  refine ⟨h1.1 (by decide) rfl,
    h1.2.2.2.1 ⟨some ⟨"t", "a", none⟩, [], []⟩ ⟨"t", "a", none⟩ rfl rfl rfl,
    h2.2.1 7 (by decide) rfl rfl,
    h2.2.2.2.1 ⟨some ⟨"t", "a", some 7⟩, [], []⟩ ⟨"t", "a", some 7⟩
      rfl rfl rfl⟩

/-! ## Claim C9: configuration clamping -/

/-- Claim C9: each configured loop interval is independently clamped below by
`0.02` seconds; a value below the minimum becomes the minimum for that field
only, and a field absent from the file keeps its previous value. -/
theorem config_clamp (cfg : AppConfig) (p r : ℚ) :
    Rat.divInt 1 50 ≤ (apply_loop_config cfg (some p) (some r)).poll_interval ∧
    Rat.divInt 1 50 ≤ (apply_loop_config cfg (some p) (some r)).render_interval ∧
    (apply_loop_config cfg (some p) (some r)).poll_interval =
      max (Rat.divInt 1 50) p ∧
    (apply_loop_config cfg (some p) (some r)).render_interval =
      max (Rat.divInt 1 50) r ∧
    (apply_loop_config cfg (some p) none).render_interval =
      cfg.render_interval ∧
    (apply_loop_config cfg none (some r)).poll_interval = cfg.poll_interval := by
  refine ⟨?_, ?_, rfl, rfl, rfl, rfl⟩ <;> exact le_max_left _ _
